import Mathlib

set_option maxHeartbeats 1000000

/-!
Shallow embedding of the `demo_streamlit_ocr` extraction pipeline
(`backend/utils.py`, `backend/pdf_extract.py`, `backend/inference.py`).

Python JSON-like values are modelled by `JVal`; Python dicts are ordered
association lists (CPython dicts preserve insertion order).  Python `None`
is `JVal.null`.
-/

/-- A Python/JSON value as handled by the pipeline. -/
inductive JVal where
  | null : JVal
  | bool : Bool → JVal
  | num : Int → JVal
  | str : String → JVal
  | list : List JVal → JVal
  | obj : List (String × JVal) → JVal

mutual

/-- Boolean equality on `JVal` (used to build decidable equality). -/
def JVal.beq : JVal → JVal → Bool
  | .null, .null => true
  | .bool a, .bool c => a == c
  | .num a, .num c => a == c
  | .str a, .str c => a == c
  | .list xs, .list ys => JVal.beqList xs ys
  | .obj xs, .obj ys => JVal.beqObj xs ys
  | _, _ => false

/-- Boolean equality on lists of `JVal`. -/
def JVal.beqList : List JVal → List JVal → Bool
  | [], [] => true
  | x :: xs, y :: ys => JVal.beq x y && JVal.beqList xs ys
  | _, _ => false

/-- Boolean equality on association lists of `JVal`. -/
def JVal.beqObj : List (String × JVal) → List (String × JVal) → Bool
  | [], [] => true
  | x :: xs, y :: ys => x.1 == y.1 && JVal.beq x.2 y.2 && JVal.beqObj xs ys
  | _, _ => false

end

mutual

theorem JVal.eq_of_beq : ∀ a b : JVal, JVal.beq a b = true → a = b
  | .null, .null, _ => rfl
  | .bool _, .bool _, h => congrArg JVal.bool (beq_iff_eq.mp h)
  | .num _, .num _, h => congrArg JVal.num (beq_iff_eq.mp h)
  | .str _, .str _, h => congrArg JVal.str (beq_iff_eq.mp h)
  | .list xs, .list ys, h => congrArg JVal.list (JVal.eqList_of_beqList xs ys h)
  | .obj xs, .obj ys, h => congrArg JVal.obj (JVal.eqObj_of_beqObj xs ys h)
  | .null, .bool _, h => nomatch h
  | .null, .num _, h => nomatch h
  | .null, .str _, h => nomatch h
  | .null, .list _, h => nomatch h
  | .null, .obj _, h => nomatch h
  | .bool _, .null, h => nomatch h
  | .bool _, .num _, h => nomatch h
  | .bool _, .str _, h => nomatch h
  | .bool _, .list _, h => nomatch h
  | .bool _, .obj _, h => nomatch h
  | .num _, .null, h => nomatch h
  | .num _, .bool _, h => nomatch h
  | .num _, .str _, h => nomatch h
  | .num _, .list _, h => nomatch h
  | .num _, .obj _, h => nomatch h
  | .str _, .null, h => nomatch h
  | .str _, .bool _, h => nomatch h
  | .str _, .num _, h => nomatch h
  | .str _, .list _, h => nomatch h
  | .str _, .obj _, h => nomatch h
  | .list _, .null, h => nomatch h
  | .list _, .bool _, h => nomatch h
  | .list _, .num _, h => nomatch h
  | .list _, .str _, h => nomatch h
  | .list _, .obj _, h => nomatch h
  | .obj _, .null, h => nomatch h
  | .obj _, .bool _, h => nomatch h
  | .obj _, .num _, h => nomatch h
  | .obj _, .str _, h => nomatch h
  | .obj _, .list _, h => nomatch h

theorem JVal.eqList_of_beqList : ∀ xs ys : List JVal, JVal.beqList xs ys = true → xs = ys
  | [], [], _ => rfl
  | x :: xs, y :: ys, h => by
    simp only [JVal.beqList, Bool.and_eq_true] at h
    exact congrArg₂ List.cons (JVal.eq_of_beq x y h.1) (JVal.eqList_of_beqList xs ys h.2)
  | [], _ :: _, h => nomatch h
  | _ :: _, [], h => nomatch h

theorem JVal.eqObj_of_beqObj :
    ∀ xs ys : List (String × JVal), JVal.beqObj xs ys = true → xs = ys
  | [], [], _ => rfl
  | x :: xs, y :: ys, h => by
    simp only [JVal.beqObj, Bool.and_eq_true, beq_iff_eq] at h
    have h2 := JVal.eq_of_beq x.2 y.2 h.1.2
    have h3 := JVal.eqObj_of_beqObj xs ys h.2
    cases x; cases y
    simp only [Prod.mk.injEq] at h2
    simp only [List.cons.injEq, Prod.mk.injEq]
    exact ⟨⟨h.1.1, h2⟩, h3⟩
  | [], _ :: _, h => nomatch h
  | _ :: _, [], h => nomatch h

end

mutual

theorem JVal.beq_refl : ∀ a : JVal, JVal.beq a a = true
  | .null => rfl
  | .bool _ => by simp [JVal.beq]
  | .num _ => by simp [JVal.beq]
  | .str _ => by simp [JVal.beq]
  | .list xs => JVal.beqList_refl xs
  | .obj xs => JVal.beqObj_refl xs

theorem JVal.beqList_refl : ∀ xs : List JVal, JVal.beqList xs xs = true
  | [] => rfl
  | x :: xs => by
    simp only [JVal.beqList, Bool.and_eq_true]
    exact ⟨JVal.beq_refl x, JVal.beqList_refl xs⟩

theorem JVal.beqObj_refl : ∀ xs : List (String × JVal), JVal.beqObj xs xs = true
  | [] => rfl
  | x :: xs => by
    simp only [JVal.beqObj, Bool.and_eq_true]
    exact ⟨⟨LawfulBEq.rfl, JVal.beq_refl x.2⟩, JVal.beqObj_refl xs⟩

end

instance : DecidableEq JVal := fun a b =>
  if h : JVal.beq a b = true then .isTrue (JVal.eq_of_beq a b h)
  else .isFalse (fun e => h (e ▸ JVal.beq_refl a))

/-- Lookup of a key in an ordered dict (first occurrence, as in Python). -/
def jlookup (k : String) : List (String × JVal) → Option JVal
  | [] => none
  | kv :: rest => if kv.1 = k then some kv.2 else jlookup k rest

/-- Python `k in d`. -/
def keyMem (k : String) (m : List (String × JVal)) : Bool :=
  (jlookup k m).isSome

/-- Python `d[k] = v`: replace the value in place when the key exists,
otherwise append at the end. -/
def pySet (m : List (String × JVal)) (k : String) (v : JVal) : List (String × JVal) :=
  if keyMem k m then m.map (fun kv => if kv.1 = k then (k, v) else kv)
  else m ++ [(k, v)]

/-- Python `del d[k]`. -/
def eraseKey (k : String) (m : List (String × JVal)) : List (String × JVal) :=
  m.filter (fun kv => kv.1 ≠ k)

/-- Python truthiness of a JSON-like value. -/
def truthyJ : JVal → Bool
  | .null => false
  | .bool b => b
  | .num n => n ≠ 0
  | .str s => s ≠ ""
  | .list xs => ¬ xs.isEmpty
  | .obj m => ¬ m.isEmpty

/-- The values removed by `remove_empty_values` (`backend/utils.py` lines 43-62):
`None`, `""`, `[]`, `{}`.  In the Python source the filter condition is
`(v is not None and v != "" and v != [] and v != {}) or v == "N/A" or v == 0
or v is False`; over JSON-like values the three sentinel disjuncts are already
covered by the first conjunct, so the kept values are exactly the
non-empty-like ones. -/
def isEmptyLike : JVal → Bool
  | .null => true
  | .str s => s = ""
  | .list xs => xs.isEmpty
  | .obj m => m.isEmpty
  | _ => false

mutual

/-- `remove_empty_values` from `backend/utils.py`.  Note that in both the dict
and the list branch the source filters on the *raw* value and only then
recurses, and that a list whose cleaned form is empty is returned as
`None` (`return cleaned if cleaned else None`). -/
def remove_empty_values : JVal → JVal
  | .obj m => .obj (removeEmptyObj m)
  | .list xs =>
    match removeEmptyList xs with
    | [] => .null
    | cleaned => .list cleaned
  | v => v

/-- The dict comprehension inside `remove_empty_values`. -/
def removeEmptyObj : List (String × JVal) → List (String × JVal)
  | [] => []
  | (k, v) :: rest =>
    if isEmptyLike v then removeEmptyObj rest
    else (k, remove_empty_values v) :: removeEmptyObj rest

/-- The list comprehension inside `remove_empty_values`. -/
def removeEmptyList : List JVal → List JVal
  | [] => []
  | x :: rest =>
    if isEmptyLike x then removeEmptyList rest
    else remove_empty_values x :: removeEmptyList rest

end

/-- `dict.update` folded over a list (`merged.update(t)` in
`normalize_extracted_data`). -/
def pyUpdate (acc : List (String × JVal)) (t : List (String × JVal)) :
    List (String × JVal) :=
  t.foldl (fun a kv => pySet a kv.1 kv.2) acc

/-- Merging a `tables` list of dicts into one dict
(`normalize_extracted_data`, lines 96-100 of `backend/utils.py`). -/
def mergeDicts (ts : List JVal) : List (String × JVal) :=
  ts.foldl (fun acc t => match t with | .obj m => pyUpdate acc m | _ => acc) []

/-- The `table_fields` set collected in `normalize_extracted_data`
(lines 104-109): the keys of the first row of every table value that is a
non-empty list whose first element is a dict.  Only membership in this
collection is ever used, so it is kept as a plain list of keys. -/
def tableFields (tm : List (String × JVal)) : List String :=
  tm.foldl
    (fun acc kv =>
      match kv.2 with
      | .list (first :: _) =>
        match first with
        | .obj row => acc ++ row.map Prod.fst
        | _ => acc
      | _ => acc)
    []

/-- Is the value a Python list? -/
def isListJ : JVal → Bool
  | .list _ => true
  | _ => false

/-- The first two statements of `normalize_extracted_data`:
`if not parsed or not isinstance(parsed, dict): parsed = {"section": ...}` and
`if "section" not in parsed: parsed["section"] = "UNKNOWN SECTION"`. -/
def ensureSectionStep (parsed0 : JVal) : List (String × JVal) :=
  let m0 : List (String × JVal) :=
    match parsed0 with
    | .obj m => if m.isEmpty then [("section", .str "UNKNOWN SECTION")] else m
    | _ => [("section", .str "UNKNOWN SECTION")]
  if keyMem "section" m0 then m0 else pySet m0 "section" (.str "UNKNOWN SECTION")

/-- The tables-normalization statements of `normalize_extracted_data`
(lines 92-101 of `backend/utils.py`): read `tables`, and when it is a list,
merge its dict elements and write the merged dict back.  Returns the value
the following `isinstance(tables, dict)` test inspects together with the
updated record. -/
def tablesMergeStep (m1 : List (String × JVal)) : JVal × List (String × JVal) :=
  -- `tables = parsed["tables"]; if isinstance(tables, list): ... parsed["tables"] = merged`
  match (jlookup "tables" m1).getD .null with
  | .list ts => (.obj (mergeDicts ts), pySet m1 "tables" (.obj (mergeDicts ts)))
  | t => (t, m1)

/-- The `if isinstance(tables, dict):` body: collect `table_fields`, collect
and delete `fields_to_remove` from `form_fields`, and drop `form_fields` when
it became empty.  Returns `none` on the uncaught-exception path of the
source: the `form_fields` value is not a dict, so `.items()` raises
`AttributeError`. -/
def ffPruneStep (tm : List (String × JVal)) (m2 : List (String × JVal)) :
    Option (List (String × JVal)) :=
  let tf := tableFields tm
  match (jlookup "form_fields" m2).getD .null with
  | .obj ffm =>
    let ffm2 := ffm.filter (fun kv => ¬ (tf.contains kv.1 ∧ isListJ kv.2))
    some (if ffm2.isEmpty then eraseKey "form_fields" m2
          else pySet m2 "form_fields" (.obj ffm2))
  | _ => none

/-- The `if "form_fields" in parsed and "tables" in parsed:` block of
`normalize_extracted_data` (lines 91-121 of `backend/utils.py`). -/
def ffTablesStep (m1 : List (String × JVal)) : Option (List (String × JVal)) :=
  if keyMem "form_fields" m1 ∧ keyMem "tables" m1 then
    match (tablesMergeStep m1).1 with
    | .obj tm => ffPruneStep tm (tablesMergeStep m1).2
    | _ => some (tablesMergeStep m1).2
  else
    some m1

/-- `normalize_extracted_data` from `backend/utils.py` (lines 80-123): ensure
`section`, run the `form_fields`/`tables` deduplication block, then
`return remove_empty_values(parsed)`. -/
def normalize_extracted_data (parsed0 : JVal) : Option JVal :=
  (ffTablesStep (ensureSectionStep parsed0)).map
    (fun m => remove_empty_values (.obj m))

/-! ## The page pipeline consumer (`extract_pdf_multi`, `backend/pdf_extract.py` lines 236-286) -/

/-- Python string slice `s[:n]` (by characters). -/
def pyTake (s : String) (n : Nat) : String :=
  ⟨s.data.take n⟩

/-- The outcome of the single `ai_analysis(pv, prompt)` call the consumer makes
for one preprocessed page: either an exception escaped (`exn`), or the call
returned the pair `(parsed, raw)`.  `ai_analysis` (`backend/inference.py`
lines 148-158) returns `(None, None)` for an empty response, `(parsed, None)`
when the response parsed as JSON, and `(None, resp)` otherwise. -/
inductive InferOut where
  | exn : String → InferOut
  | out : Option JVal → Option String → InferOut
  deriving DecidableEq

/-- The error-shaped Page Record built by the consumer loop. -/
def pageErrorRecord (idx : Int) (msg : String) : JVal :=
  .obj [("page", .num idx), ("section", .str "ERROR"), ("error_message", .str msg)]

/-- The Python f-string fragment `{raw[:200] if raw else 'None'}` in the
invalid-JSON branch of the consumer loop. -/
def rawExcerpt : Option String → String
  | some r => if r = "" then "None" else pyTake r 200
  | none => "None"

/-- Placeholder for the message of the `AttributeError` the source raises inside
`normalize_extracted_data` when `form_fields` is present but not a dict; the
consumer loop catches it in its `except Exception` arm.  The exact message
text is interpreter-generated and not modelled. -/
def normalizeCrashMsg : String := "AttributeError"

/-- The entries of a Page Record (all records built by the consumer are
objects). -/
def recordEntries : JVal → List (String × JVal)
  | .obj m => m
  | _ => []

/-- One iteration of the merge loop
`for key, value in parsed.items(): if key != "section" and value:
page_data[key] = value` (lines 268-270 of `backend/pdf_extract.py`). -/
def mergeStep (acc : List (String × JVal)) (kv : String × JVal) :
    List (String × JVal) :=
  if kv.1 ≠ "section" ∧ truthyJ kv.2 then pySet acc kv.1 kv.2 else acc

/-- The body of the consumer loop of `extract_pdf_multi` (lines 243-278):
turn one dequeued `(page_idx, pv-or-None)` item, together with the outcome of
the single inference call made for it, into a Page Record. -/
def consumeItem (idx : Int) (item : Option InferOut) : JVal :=
  match item with
  | none => pageErrorRecord idx "Preprocessing failed"
  | some (.exn m) => pageErrorRecord idx m
  | some (.out none raw) =>
    pageErrorRecord idx ("Invalid JSON. Raw: " ++ rawExcerpt raw)
  | some (.out (some parsed) _) =>
    match normalize_extracted_data parsed with
    | none => pageErrorRecord idx normalizeCrashMsg
    | some p =>
      let pes := recordEntries p
      let base : List (String × JVal) :=
        [("page", .num idx),
         ("section", (jlookup "section" pes).getD (.str "UNKNOWN SECTION"))]
      .obj (pes.foldl mergeStep base)

/-- The `page` sort key used by `page_results.sort(key=lambda x: x["page"])`. -/
def pageKeyJ (j : JVal) : Int :=
  match jlookup "page" (recordEntries j) with
  | some (.num n) => n
  | _ => 0

/-- Comparison on Page Records by their `page` field. -/
def pageLe (a b : JVal) : Prop := pageKeyJ a ≤ pageKeyJ b

instance : DecidableRel pageLe := fun a b =>
  inferInstanceAs (Decidable (pageKeyJ a ≤ pageKeyJ b))

instance : IsTotal JVal pageLe := ⟨fun a b => Int.le_total (pageKeyJ a) (pageKeyJ b)⟩

instance : IsTrans JVal pageLe := ⟨fun _ _ _ h1 h2 => Int.le_trans h1 h2⟩

/-- `page_results.sort(key=lambda x: x["page"])`: a stable sort ascending by
the `page` field. -/
def sortPages (l : List JVal) : List JVal := List.insertionSort pageLe l

/-- Items the preprocessor worker enqueues: one per rendered page, numbered
`start_page, start_page+1, ...` (`enumerate(pages, start=start_page)`), each
carrying either the page's eventual inference outcome or `none` when
preprocessing failed (`preprocessed_queue.put((page_idx, None))`). -/
def producerItems (start : Int) (prep : List (Option InferOut)) :
    List (Int × Option InferOut) :=
  ((List.range prep.length).map (fun i => start + Int.ofNat i)).zip prep

/-- The consumer loop followed by the final sort: one Page Record is appended
per dequeued item, and `page_results.sort(key=lambda x: x["page"])` runs
before assembling the Document Record.  `delivered` is the sequence of queue
items in whatever order the consumer received them. -/
def assemblePages (delivered : List (Int × Option InferOut)) : List JVal :=
  sortPages (delivered.map (fun it => consumeItem it.1 it.2))

/-! ## `process_single_page` (`backend/pdf_extract.py` lines 115-138) -/

/-- Is the first character list a prefix of the second? -/
def charsPrefix : List Char → List Char → Bool
  | [], _ => true
  | _ :: _, [] => false
  | a :: as, b :: bs => a == b && charsPrefix as bs

/-- Does the character list contain `sub` as a contiguous sublist? -/
def charsContain (sub : List Char) : List Char → Bool
  | [] => sub.isEmpty
  | c :: rest => charsPrefix sub (c :: rest) || charsContain sub rest

/-- Does `s` contain `sub` as a substring (Python `sub in s`)? -/
def strContains (s sub : String) : Bool :=
  charsContain sub.data s.data

/-- Python `str.lower()` (ASCII case suffices for the messages involved). -/
def pyLower (s : String) : String :=
  ⟨s.data.map Char.toLower⟩

/-- The OOM test of `process_single_page`:
`"CUDA" in str(e) or "out of memory" in str(e).lower()`. -/
def isOOMMsg (msg : String) : Bool :=
  strContains msg "CUDA" || strContains (pyLower msg) "out of memory"

/-- Outcome of one `load_image` + `.to(device)` + `ai_analysis` attempt at a
given tile budget inside `process_single_page`.  `ok parsed` is a completed
call (`parsed` is the first component returned by `ai_analysis`; Python `None`
is `JVal.null`); `runtimeError` / `otherError` are an escaped `RuntimeError`
resp. any other exception, carrying `str(e)`. -/
inductive AttemptOutcome where
  | ok : JVal → AttemptOutcome
  | runtimeError : String → AttemptOutcome
  | otherError : String → AttemptOutcome

/-- What `process_single_page` produces: either a returned status record, or
an exception propagating out of the function. -/
inductive PSPOut where
  | record : String → JVal → PSPOut
  | raised : String → PSPOut
  deriving DecidableEq

/-- `process_single_page(image, prompt, max_num)`, instrumented: `attempt b`
is the outcome of running the attempt at tile budget `b`; the result also
carries the list of budgets attempted, in order, and whether
`torch.cuda.empty_cache(); gc.collect()` ran.  The fallback attempt sits
inside the `except RuntimeError` handler, so an exception it raises
propagates out of the function (`PSPOut.raised`). -/
def process_single_page (attempt : Nat → AttemptOutcome) (max_num : Nat) :
    PSPOut × List Nat × Bool :=
  match attempt max_num with
  | .ok parsed =>
    match normalize_extracted_data parsed with
    | some d => (.record "success" d, [max_num], false)
    | none =>
      (.record "error" (.obj [("section", .str "ERROR"),
                              ("error_message", .str normalizeCrashMsg)]),
       [max_num], false)
  | .runtimeError m =>
    if isOOMMsg m then
      -- torch.cuda.empty_cache(); gc.collect(); retry with max_num=6
      match attempt 6 with
      | .ok parsed =>
        match normalize_extracted_data parsed with
        | some d => (.record "success_fallback" d, [max_num, 6], true)
        | none => (.raised normalizeCrashMsg, [max_num, 6], true)
      | .runtimeError m2 => (.raised m2, [max_num, 6], true)
      | .otherError m2 => (.raised m2, [max_num, 6], true)
    else
      (.record "error" (.obj [("section", .str "ERROR"), ("error_message", .str m)]),
       [max_num], false)
  | .otherError m =>
    (.record "error" (.obj [("section", .str "ERROR"), ("error_message", .str m)]),
     [max_num], false)

/-- The message of the `ModelNotLoadedError` raised by `load_context`
(`backend/inference.py` line 65) when `DISABLE_MODEL_LOAD=1`. -/
def mnleMessage : String := "Model loading disabled (DISABLE_MODEL_LOAD=1)."

/-! ## The tiling preprocessor (`backend/pdf_extract.py` lines 35-98) -/

/-- The absolute difference driving grid selection:
`abs(aspect_ratio - (r[0] / r[1]))`, over exact rationals. -/
def ratioDiff (ar : ℚ) (r : Nat × Nat) : ℚ :=
  |ar - (r.1 : ℚ) / (r.2 : ℚ)|

/-- `find_closest_aspect_ratio` (lines 35-43): scan the candidate list keeping
the first grid of strictly smallest difference; `best_diff` starts at
`float("inf")` (modelled by `none`) and `best` at `(1, 1)`. -/
def fcaStep (aspect_ratio : ℚ) (acc : (Nat × Nat) × Option ℚ) (r : Nat × Nat) :
    (Nat × Nat) × Option ℚ :=
  let diff := ratioDiff aspect_ratio r
  match acc.2 with
  | none => (r, some diff)
  | some bd => if diff < bd then (r, some diff) else acc

def find_closest_aspect_ratio (aspect_ratio : ℚ) (target_ratios : List (Nat × Nat)) :
    Nat × Nat :=
  (target_ratios.foldl (fcaStep aspect_ratio) ((1, 1), none)).1

/-- Candidate grid list for a tile budget: all `(i, j)` with
`1 ≤ i, j ≤ max_num` and `1 ≤ i*j ≤ max_num`, sorted ascending by `i*j`.
The source builds the same set with a redundant outer `for n in
range(1, max_num+1)` loop (every pair it ever adds already satisfies
`i, j ≤ max_num` and `i*j ≤ max_num`, and all such pairs appear at
`n = max_num`), then applies `sorted(..., key=lambda x: x[0]*x[1])`. -/
def targetRatiosFor (maxNum : Nat) : List (Nat × Nat) :=
  List.insertionSort (fun a b => a.1 * a.2 ≤ b.1 * b.2)
    (((List.range maxNum).map (· + 1)).flatMap
      (fun i => ((List.range maxNum).map (· + 1)).filterMap
        (fun j => if 1 ≤ i * j ∧ i * j ≤ maxNum then some (i, j) else none)))

/-- `TARGET_RATIOS_6` (lines 47-52). -/
def TARGET_RATIOS_6 : List (Nat × Nat) := targetRatiosFor 6

/-- `TARGET_RATIOS_12` (lines 54-59). -/
def TARGET_RATIOS_12 : List (Nat × Nat) := targetRatiosFor 12

/-- A crop rectangle `(left, upper, right, lower)` of the resized page. -/
structure Box where
  x1 : Nat
  y1 : Nat
  x2 : Nat
  y2 : Nat
  deriving DecidableEq

/-- One element of the tile batch: a crop of the resized page, or the
whole-image thumbnail appended at the end. -/
inductive Tile where
  | crop : Box → Tile
  | thumb : Tile
  deriving DecidableEq

/-- The first statements of `dynamic_preprocess` (lines 64-80): compute the
aspect ratio `ow/oh`, pick the candidate list for the budget (precomputed for
6 and 12), and run `find_closest_aspect_ratio`. -/
def chosenGrid (ow oh : Nat) (max_num : Nat) : Nat × Nat :=
  find_closest_aspect_ratio ((ow : ℚ) / (oh : ℚ))
    (if max_num = 6 then TARGET_RATIOS_6
     else if max_num = 12 then TARGET_RATIOS_12
     else targetRatiosFor max_num)

/-- `dynamic_preprocess` (lines 62-98), modelled on the geometry: the image is
its pixel size `(ow, oh)`, and each produced tile is the crop box computed by
the source (`resized.crop(box)`), with the optional trailing thumbnail. -/
def dynamic_preprocess (ow oh : Nat) (max_num image_size : Nat)
    (use_thumbnail : Bool) : List Tile :=
  let best := chosenGrid ow oh max_num
  let tw := image_size * best.1
  let blocks := best.1 * best.2
  let crops := (List.range blocks).map (fun i =>
    Tile.crop
      ⟨(i % (tw / image_size)) * image_size,
       (i / (tw / image_size)) * image_size,
       ((i % (tw / image_size)) + 1) * image_size,
       ((i / (tw / image_size)) + 1) * image_size⟩)
  if use_thumbnail ∧ crops.length ≠ 1 then crops ++ [Tile.thumb] else crops

/-- The grid cell at row-major index `i` for `cols` columns and tile size
`s`: the crop box computed at line 87-92 of `backend/pdf_extract.py`. -/
def cellBox (cols s i : Nat) : Box :=
  ⟨(i % cols) * s, (i / cols) * s, (i % cols + 1) * s, (i / cols + 1) * s⟩

/-- Two boxes do not overlap (their interiors are disjoint). -/
def Box.Disjoint (a b : Box) : Prop :=
  a.x2 ≤ b.x1 ∨ b.x2 ≤ a.x1 ∨ a.y2 ≤ b.y1 ∨ b.y2 ≤ a.y1

/-- Atomic (non-container) values: `None`, booleans, numbers, strings. -/
def isAtom : JVal → Bool
  | .list _ => false
  | .obj _ => false
  | _ => true

/-- The `section` value `normalize_extracted_data` guarantees before the
final stripping: the looked-up value of `section` after the first two
statements of the function (the `UNKNOWN SECTION` sentinel when the input is
not a dict, is falsy, or lacks the key). -/
def ensuredSection : JVal → JVal
  | .obj m =>
    if m.isEmpty then .str "UNKNOWN SECTION"
    else (jlookup "section" m).getD (.str "UNKNOWN SECTION")
  | _ => .str "UNKNOWN SECTION"

/-- Does a record (an object value) carry the given key? -/
def jHasKey (k : String) : JVal → Bool
  | .obj m => keyMem k m
  | _ => false

/-- Well-formedness of a value as a Python object: a dict has no duplicated
top-level keys (guaranteed for every real Python dict). -/
def topKeysNodup : JVal → Prop
  | .obj m => (m.map Prod.fst).Nodup
  | _ => True

/-- Specification-side first-minimum scan: the element the loop of
`find_closest_aspect_ratio` ends up with after processing the list, starting
from current best `best` (strict improvement only, so the first minimizer
wins ties). -/
def firstMin (ar : ℚ) : List (Nat × Nat) → (Nat × Nat) → Nat × Nat
  | [], best => best
  | r :: rest, best =>
    if ratioDiff ar r < ratioDiff ar best then firstMin ar rest r
    else firstMin ar rest best

/-! ## Association-list lemmas -/

theorem jlookup_none_iff (k : String) (m : List (String × JVal)) :
    jlookup k m = none ↔ k ∉ m.map Prod.fst := by
  induction m with
  | nil => simp [jlookup]
  | cons kv rest ih =>
    by_cases h : kv.1 = k
    · simp [jlookup, h]
    · simp [jlookup, h, ih, Ne.symm h]

theorem jlookup_mem {k : String} {m : List (String × JVal)} {v : JVal}
    (h : jlookup k m = some v) : (k, v) ∈ m := by
  induction m with
  | nil => simp [jlookup] at h
  | cons kv rest ih =>
    by_cases hk : kv.1 = k
    · simp only [jlookup, if_pos hk] at h
      cases kv
      cases h
      subst hk
      exact List.mem_cons_self _ _
    · simp only [jlookup, if_neg hk] at h
      exact List.mem_cons_of_mem _ (ih h)

theorem jlookup_append (k : String) (a b : List (String × JVal)) :
    jlookup k (a ++ b) =
      match jlookup k a with
      | some v => some v
      | none => jlookup k b := by
  induction a with
  | nil => simp [jlookup]
  | cons kv rest ih =>
    by_cases h : kv.1 = k
    · simp [jlookup, h]
    · simp [jlookup, h, ih]

theorem jlookup_mapReplace_ne {k k2 : String} (h : k ≠ k2) (v : JVal) :
    ∀ m : List (String × JVal),
      jlookup k (m.map (fun kv => if kv.1 = k2 then (k2, v) else kv)) = jlookup k m := by
  intro m
  induction m with
  | nil => simp [jlookup]
  | cons kv rest ih =>
    by_cases hk : kv.1 = k2
    · simp [jlookup, hk, Ne.symm h, ih]
    · simp only [List.map_cons, if_neg hk, jlookup, ih]

theorem jlookup_pySet_ne {k k2 : String} (h : k ≠ k2) (m : List (String × JVal))
    (v : JVal) : jlookup k (pySet m k2 v) = jlookup k m := by
  unfold pySet
  by_cases hm : keyMem k2 m
  · rw [if_pos hm]
    exact jlookup_mapReplace_ne h v m
  · rw [if_neg hm, jlookup_append]
    have hone : jlookup k [(k2, v)] = none := by simp [jlookup, Ne.symm h]
    cases hl : jlookup k m <;> simp [hl, hone]

theorem jlookup_eraseKey_ne {k k2 : String} (h : k ≠ k2) (m : List (String × JVal)) :
    jlookup k (eraseKey k2 m) = jlookup k m := by
  induction m with
  | nil => rfl
  | cons kv rest ih =>
    cases kv with
    | mk k0 v0 =>
      by_cases hk : k0 = k2
      · subst hk
        simp only [eraseKey, ne_eq, decide_not] at ih ⊢
        simp [List.filter_cons, jlookup, Ne.symm h, ih]
      · by_cases hkk : k0 = k
        · subst hkk
          simp only [eraseKey] at ih ⊢
          simp [List.filter_cons, jlookup, hk, h]
        · simp only [eraseKey, ne_eq, decide_not] at ih ⊢
          simp [List.filter_cons, jlookup, hk, hkk, ih]

theorem keys_pySet_of_mem {k2 : String} {m : List (String × JVal)}
    (h : keyMem k2 m = true) (v : JVal) :
    (pySet m k2 v).map Prod.fst = m.map Prod.fst := by
  unfold pySet
  rw [if_pos h, List.map_map]
  apply List.map_congr_left
  intro kv _
  by_cases hk : kv.1 = k2 <;> simp [hk]

theorem keys_pySet_of_not_mem {k2 : String} {m : List (String × JVal)}
    (h : keyMem k2 m = false) (v : JVal) :
    (pySet m k2 v).map Prod.fst = m.map Prod.fst ++ [k2] := by
  unfold pySet
  rw [if_neg (by simp [h]), List.map_append]
  rfl

theorem keys_eraseKey_sublist (k2 : String) (m : List (String × JVal)) :
    ((eraseKey k2 m).map Prod.fst).Sublist (m.map Prod.fst) :=
  (List.filter_sublist m).map Prod.fst

theorem keys_removeEmptyObj_sublist (m : List (String × JVal)) :
    ((removeEmptyObj m).map Prod.fst).Sublist (m.map Prod.fst) := by
  induction m with
  | nil => simp [removeEmptyObj]
  | cons kv rest ih =>
    cases kv with
    | mk k v =>
      by_cases h : isEmptyLike v
      · simp only [removeEmptyObj, if_pos h]
        exact ih.trans (List.sublist_cons_self _ _)
      · simp only [removeEmptyObj, if_neg h, List.map_cons]
        exact ih.cons₂ _

theorem jlookup_removeEmptyObj_some {k : String} {m : List (String × JVal)} {v : JVal}
    (h : jlookup k m = some v) (he : isEmptyLike v = false) :
    jlookup k (removeEmptyObj m) = some (remove_empty_values v) := by
  induction m with
  | nil => simp [jlookup] at h
  | cons kv rest ih =>
    cases kv with
    | mk k0 v0 =>
      by_cases hk : k0 = k
      · simp only [jlookup, if_pos hk] at h
        cases h
        simp only [removeEmptyObj, he, Bool.false_eq_true, if_false, jlookup, if_pos hk]
      · simp only [jlookup, if_neg hk] at h
        by_cases h0 : isEmptyLike v0
        · simp only [removeEmptyObj, if_pos h0]
          exact ih h
        · simp only [removeEmptyObj, if_neg h0, jlookup, if_neg hk]
          exact ih h

theorem jlookup_removeEmptyObj_none {k : String} {m : List (String × JVal)}
    (h : jlookup k m = none) : jlookup k (removeEmptyObj m) = none := by
  rw [jlookup_none_iff] at h ⊢
  exact fun hm => h ((keys_removeEmptyObj_sublist m).subset hm)

theorem keyMem_false_iff (k : String) (m : List (String × JVal)) :
    keyMem k m = false ↔ k ∉ m.map Prod.fst := by
  unfold keyMem
  cases hj : jlookup k m with
  | none => simpa [hj] using (jlookup_none_iff k m).mp hj
  | some v =>
    simp only [Option.isSome_some, Bool.true_eq_false, false_iff, not_not]
    exact List.mem_map_of_mem Prod.fst (jlookup_mem hj)

theorem keyMem_true_iff (k : String) (m : List (String × JVal)) :
    keyMem k m = true ↔ ∃ v, jlookup k m = some v := by
  unfold keyMem
  cases hj : jlookup k m <;> simp [hj]

theorem nodup_keys_pySet {k : String} {m : List (String × JVal)}
    (hnd : (m.map Prod.fst).Nodup) (v : JVal) :
    ((pySet m k v).map Prod.fst).Nodup := by
  cases hm : keyMem k m
  · rw [keys_pySet_of_not_mem hm v]
    have hk : k ∉ m.map Prod.fst := (keyMem_false_iff k m).mp hm
    exact List.Nodup.append hnd (List.nodup_singleton k) (by simpa using hk)
  · rw [keys_pySet_of_mem hm v]
    exact hnd

theorem jlookup_removeEmptyObj_empty {k : String} {m : List (String × JVal)} {v : JVal}
    (hnd : (m.map Prod.fst).Nodup) (h : jlookup k m = some v)
    (he : isEmptyLike v = true) : jlookup k (removeEmptyObj m) = none := by
  induction m with
  | nil => simp [jlookup] at h
  | cons kv rest ih =>
    cases kv with
    | mk k0 v0 =>
      simp only [List.map_cons, List.nodup_cons] at hnd
      by_cases hk : k0 = k
      · simp only [jlookup, if_pos hk] at h
        cases h
        simp only [removeEmptyObj, if_pos he]
        rw [jlookup_none_iff]
        subst hk
        exact fun hm => hnd.1 ((keys_removeEmptyObj_sublist rest).subset hm)
      · simp only [jlookup, if_neg hk] at h
        by_cases h0 : isEmptyLike v0
        · simp only [removeEmptyObj, if_pos h0]
          exact ih hnd.2 h
        · simp only [removeEmptyObj, if_neg h0, jlookup, if_neg hk]
          exact ih hnd.2 h

theorem tablesMergeStep_lookup {k : String} (h : k ≠ "tables")
    (m1 : List (String × JVal)) :
    jlookup k (tablesMergeStep m1).2 = jlookup k m1 := by
  unfold tablesMergeStep
  split
  · exact jlookup_pySet_ne h m1 _
  · rfl

theorem tablesMergeStep_keys_nodup {m1 : List (String × JVal)}
    (hnd : (m1.map Prod.fst).Nodup) : ((tablesMergeStep m1).2.map Prod.fst).Nodup := by
  unfold tablesMergeStep
  split
  · exact nodup_keys_pySet hnd _
  · exact hnd

theorem ffPruneStep_lookup {k : String} (h : k ≠ "form_fields")
    {tm m2 m3 : List (String × JVal)} (hp : ffPruneStep tm m2 = some m3) :
    jlookup k m3 = jlookup k m2 := by
  unfold ffPruneStep at hp
  split at hp
  · cases hp
    split
    · exact jlookup_eraseKey_ne h m2
    · exact jlookup_pySet_ne h m2 _
  · cases hp

theorem ffPruneStep_keys_nodup {tm m2 m3 : List (String × JVal)}
    (hp : ffPruneStep tm m2 = some m3) (hnd : (m2.map Prod.fst).Nodup) :
    (m3.map Prod.fst).Nodup := by
  unfold ffPruneStep at hp
  split at hp
  · cases hp
    split
    · exact hnd.sublist (keys_eraseKey_sublist _ m2)
    · exact nodup_keys_pySet hnd _
  · cases hp

theorem ffTablesStep_lookup {k : String} (h1 : k ≠ "form_fields") (h2 : k ≠ "tables")
    {m1 m3 : List (String × JVal)} (h : ffTablesStep m1 = some m3) :
    jlookup k m3 = jlookup k m1 := by
  unfold ffTablesStep at h
  split at h
  · split at h
    · exact (ffPruneStep_lookup h1 h).trans (tablesMergeStep_lookup h2 m1)
    · cases h
      exact tablesMergeStep_lookup h2 m1
  · cases h
    rfl

theorem ffTablesStep_keys_nodup {m1 m3 : List (String × JVal)}
    (h : ffTablesStep m1 = some m3) (hnd : (m1.map Prod.fst).Nodup) :
    (m3.map Prod.fst).Nodup := by
  unfold ffTablesStep at h
  split at h
  · split at h
    · exact ffPruneStep_keys_nodup h (tablesMergeStep_keys_nodup hnd)
    · cases h
      exact tablesMergeStep_keys_nodup hnd
  · cases h
    exact hnd

/-! ## Claim theorems -/

/-- C9: for every page whose inference succeeds but whose returned text cannot
be parsed into a structured object, the emitted Page Record has
`section = "ERROR"` and an `error_message` embedding the prefix
`raw[:200]` of the raw text, which is at most 200 characters long and a
prefix of the raw text. -/
theorem C9_invalid_json_record (idx : Int) (raw : String) (h : raw ≠ "") :
    consumeItem idx (some (.out none (some raw)))
      = pageErrorRecord idx ("Invalid JSON. Raw: " ++ pyTake raw 200)
    ∧ jlookup "section" (recordEntries (consumeItem idx (some (.out none (some raw)))))
      = some (.str "ERROR")
    ∧ (pyTake raw 200).length ≤ 200
    ∧ (pyTake raw 200).data.IsPrefix raw.data := by
  refine ⟨by simp [consumeItem, rawExcerpt, h], ?_, ?_, ?_⟩
  · simp [consumeItem, rawExcerpt, h, pageErrorRecord, recordEntries, jlookup]
  · show (raw.data.take 200).length ≤ 200
    rw [List.length_take]
    exact min_le_left _ _
  · exact List.take_prefix 200 raw.data

theorem C9_witness :
    ("not json" ≠ "")
    ∧ consumeItem 2 (some (.out none (some "not json")))
        = pageErrorRecord 2 ("Invalid JSON. Raw: " ++ pyTake "not json" 200) :=
  ⟨by decide, (C9_invalid_json_record 2 "not json" (by decide)).1⟩

/-- C8: contrary to the claim, an uninitialized inference resource is not
fatal at request level.  `ModelNotLoadedError` is a `RuntimeError` subclass
whose message contains neither `"CUDA"` nor `"out of memory"`, so the
consumer loop's `except Exception` turns it into a per-page error record, and
`process_single_page` (the metadata path) returns an error-status record;
nothing re-raises it, so the `except ModelNotLoadedError` handler in
`run_ocr` (`backend/main.py` lines 143-152) is unreachable through the
extraction path and the request completes with HTTP 200. -/
theorem C8_mnle_swallowed_per_page :
    consumeItem 1 (some (.exn mnleMessage)) = pageErrorRecord 1 mnleMessage
    ∧ process_single_page (fun _ => .runtimeError mnleMessage) 12
        = (.record "error" (.obj [("section", .str "ERROR"),
            ("error_message", .str mnleMessage)]), [12], false)
    ∧ isOOMMsg mnleMessage = false :=
  ⟨rfl, by decide, by decide⟩

/-- C1 fails as stated: when the first attempt hits an OOM `RuntimeError` and
the retry at budget 6 fails as well, `process_single_page` does not record
the page as an error — the retry runs inside the `except RuntimeError`
handler, so its exception propagates out of the function. -/
theorem C1_counterexample :
    process_single_page
        (fun n => if n = 12 then AttemptOutcome.runtimeError "CUDA out of memory"
                  else AttemptOutcome.runtimeError "cublas runtime error") 12
      = (PSPOut.raised "cublas runtime error", [12, 6], true)
    ∧ (process_single_page
        (fun n => if n = 12 then AttemptOutcome.runtimeError "CUDA out of memory"
                  else AttemptOutcome.runtimeError "cublas runtime error") 12).1
      ≠ PSPOut.record "error" (.obj [("section", .str "ERROR"),
          ("error_message", .str "cublas runtime error")]) :=
  ⟨by decide, by decide⟩

/-- C1 amended: the resource-exhaustion fallback lives in
`process_single_page` (used for the metadata page).  A first attempt failing
with a `RuntimeError` whose message matches the OOM test triggers exactly one
retry at tile budget 6 after clearing cached state; a successful retry is
tagged `success_fallback`; a failing retry raises out of the function instead
of producing an error record.  Pages of the main extraction loop are never
retried: any inference exception immediately becomes an error record. -/
theorem C1_amended (attempt : Nat → AttemptOutcome) (m m2 : String) (p d : JVal) :
    (attempt 12 = .runtimeError m → isOOMMsg m = true →
      (process_single_page attempt 12).2 = ([12, 6], true))
    ∧ (attempt 12 = .runtimeError m → isOOMMsg m = true → attempt 6 = .ok p →
        normalize_extracted_data p = some d →
        (process_single_page attempt 12).1 = .record "success_fallback" d)
    ∧ (attempt 12 = .runtimeError m → isOOMMsg m = true → attempt 6 = .runtimeError m2 →
        (process_single_page attempt 12).1 = .raised m2)
    ∧ (attempt 12 = .runtimeError m → isOOMMsg m = false →
        process_single_page attempt 12
          = (.record "error" (.obj [("section", .str "ERROR"),
              ("error_message", .str m)]), [12], false))
    ∧ (∀ idx : Int, consumeItem idx (some (.exn m)) = pageErrorRecord idx m) := by
  refine ⟨?_, ?_, ?_, ?_, fun _ => rfl⟩
  · intro h12 hoom
    unfold process_single_page
    rw [h12]
    simp only [hoom, if_true]
    cases h6 : attempt 6 with
    | ok parsed => cases hn : normalize_extracted_data parsed <;> simp [hn]
    | runtimeError m2 => simp
    | otherError m2 => simp
  · intro h12 hoom h6 hn
    unfold process_single_page
    rw [h12]
    simp only [hoom, if_true, h6, hn]
  · intro h12 hoom h6
    unfold process_single_page
    rw [h12]
    simp only [hoom, if_true, h6]
  · intro h12 hoom
    unfold process_single_page
    rw [h12]
    simp [hoom]

theorem C1_amended_witness :
    ((fun n => if n = 12 then AttemptOutcome.runtimeError "CUDA out of memory"
               else AttemptOutcome.ok (.obj [("section", .str "S")])) : Nat → AttemptOutcome) 12
      = .runtimeError "CUDA out of memory"
    ∧ isOOMMsg "CUDA out of memory" = true
    ∧ (process_single_page
        (fun n => if n = 12 then AttemptOutcome.runtimeError "CUDA out of memory"
                  else AttemptOutcome.ok (.obj [("section", .str "S")])) 12).1
      = .record "success_fallback" (.obj [("section", .str "S")]) :=
  ⟨rfl, by decide,
    (C1_amended
      (fun n => if n = 12 then AttemptOutcome.runtimeError "CUDA out of memory"
                else AttemptOutcome.ok (.obj [("section", .str "S")]))
      "CUDA out of memory" "" (.obj [("section", .str "S")])
      (.obj [("section", .str "S")])).2.1 rfl (by decide) rfl (by decide)⟩

theorem jlookup_of_mem_nodup {k : String} {v : JVal} {m : List (String × JVal)}
    (hmem : (k, v) ∈ m) (hnd : (m.map Prod.fst).Nodup) : jlookup k m = some v := by
  induction m with
  | nil => cases hmem
  | cons kv rest ih =>
    simp only [List.map_cons, List.nodup_cons] at hnd
    rcases List.mem_cons.mp hmem with heq | htail
    · cases heq
      simp [jlookup]
    · have hk : kv.1 ≠ k := by
        intro e
        exact hnd.1 (e ▸ List.mem_map_of_mem Prod.fst htail)
      simp only [jlookup, if_neg hk]
      exact ih htail hnd.2

theorem mem_removeEmptyObj {m : List (String × JVal)} {k : String} {v : JVal}
    (hmem : (k, v) ∈ m) (he : isEmptyLike v = false) :
    (k, remove_empty_values v) ∈ removeEmptyObj m := by
  induction m with
  | nil => cases hmem
  | cons kv rest ih =>
    cases kv with
    | mk k0 v0 =>
      rcases List.mem_cons.mp hmem with heq | htail
      · cases heq
        simp only [removeEmptyObj, he, Bool.false_eq_true, if_false]
        exact List.mem_cons_self _ _
      · by_cases h0 : isEmptyLike v0
        · simp only [removeEmptyObj, if_pos h0]
          exact ih htail
        · simp only [removeEmptyObj, if_neg h0]
          exact List.mem_cons_of_mem _ (ih htail)

/-- C4 fails on its last conjunct: a field whose list value becomes empty
only after cleaning its elements is not dropped — the raw list passes the
filter, and the recursion then turns it into `None`, so the field is kept
with value `null`. -/
theorem C4_counterexample :
    remove_empty_values (.obj [("a", .list [.str ""])]) = .obj [("a", .null)]
    ∧ JVal.obj [("a", .null)] ≠ .obj [] :=
  ⟨by decide, by decide⟩

/-- C4 amended: `remove_empty_values` removes exactly the fields whose raw
value is `None`, `""`, `[]` or `{}`; fields valued `"N/A"`, `0` or `false`
are always kept; and a field whose list value becomes empty after cleaning
its elements is kept with value `null` (the list is replaced by `None`, not
kept as an empty list, but the containing field is not dropped). -/
theorem C4_amended (m : List (String × JVal)) (k : String) (v : JVal)
    (hmem : (k, v) ∈ m) :
    remove_empty_values (.obj m) = .obj (removeEmptyObj m)
    ∧ (isEmptyLike v = true → (m.map Prod.fst).Nodup →
        keyMem k (removeEmptyObj m) = false)
    ∧ (v = .str "N/A" ∨ v = .num 0 ∨ v = .bool false → (k, v) ∈ removeEmptyObj m)
    ∧ (∀ xs : List JVal, v = .list xs → xs ≠ [] → removeEmptyList xs = [] →
        (k, .null) ∈ removeEmptyObj m) := by
  refine ⟨rfl, ?_, ?_, ?_⟩
  · intro he hnd
    have hj := jlookup_of_mem_nodup hmem hnd
    have := jlookup_removeEmptyObj_empty hnd hj he
    simp [keyMem, this]
  · rintro (rfl | rfl | rfl)
    · exact mem_removeEmptyObj hmem (by decide)
    · exact mem_removeEmptyObj hmem (by decide)
    · exact mem_removeEmptyObj hmem (by decide)
  · rintro xs rfl hne hcl
    have he : isEmptyLike (.list xs) = false := by
      cases xs with
      | nil => exact absurd rfl hne
      | cons x rest => simp [isEmptyLike]
    have := mem_removeEmptyObj hmem he
    rwa [show remove_empty_values (.list xs) = .null from by
      simp only [remove_empty_values, hcl]] at this

theorem C4_amended_witness :
    (("a", JVal.str "N/A") ∈ ([("a", .str "N/A"), ("b", .str "")] : List (String × JVal)))
    ∧ (("a", JVal.str "N/A") ∈ removeEmptyObj [("a", .str "N/A"), ("b", .str "")]) :=
  ⟨List.mem_cons_self _ _,
    (C4_amended [("a", .str "N/A"), ("b", .str "")] "a" (.str "N/A")
      (List.mem_cons_self _ _)).2.2.1 (Or.inl rfl)⟩

theorem remove_empty_atom (v : JVal) (h : isAtom v = true) :
    remove_empty_values v = v := by
  cases v <;> simp_all [isAtom, remove_empty_values]

theorem removeEmptyObj_id (m : List (String × JVal))
    (h : ∀ kv ∈ m, isAtom kv.2 = true ∧ isEmptyLike kv.2 = false) :
    removeEmptyObj m = m := by
  induction m with
  | nil => rfl
  | cons kv rest ih =>
    cases kv with
    | mk k v =>
      have hv := h (k, v) (List.mem_cons_self _ _)
      simp only [removeEmptyObj, hv.2, Bool.false_eq_true, if_false]
      rw [remove_empty_atom v hv.1, ih (fun kv hkv => h kv (List.mem_cons_of_mem _ hkv))]

theorem ffTablesStep_atoms (l : List (String × JVal))
    (h : ∀ kv ∈ l, isAtom kv.2 = true) : ffTablesStep l = some l := by
  unfold ffTablesStep
  by_cases hc : keyMem "form_fields" l ∧ keyMem "tables" l
  · rw [if_pos hc]
    obtain ⟨t, ht⟩ := (keyMem_true_iff _ _).mp hc.2
    have hat : isAtom t = true := h ("tables", t) (jlookup_mem ht)
    have hms : tablesMergeStep l = (t, l) := by
      unfold tablesMergeStep
      rw [ht]
      cases t <;> simp_all [isAtom]
    rw [hms]
    cases t <;> simp_all [isAtom]
  · rw [if_neg hc]

theorem ensureSectionStep_entries (m : List (String × JVal))
    (hm : ∀ kv ∈ m, isAtom kv.2 = true ∧ isEmptyLike kv.2 = false) :
    ∀ kv ∈ ensureSectionStep (.obj m), isAtom kv.2 = true ∧ isEmptyLike kv.2 = false := by
  intro kv hkv
  unfold ensureSectionStep at hkv
  by_cases he : m.isEmpty
  · simp only [he, if_true] at hkv
    split at hkv <;> simp_all [pySet, keyMem, jlookup, isAtom, isEmptyLike]
  · simp only [he, Bool.false_eq_true, if_false] at hkv
    split at hkv
    · exact hm kv hkv
    · unfold pySet at hkv
      split at hkv
      · obtain ⟨kv0, hkv0, heq⟩ := List.mem_map.mp hkv
        by_cases h0 : kv0.1 = "section"
        · rw [if_pos h0] at heq
          cases heq
          exact ⟨rfl, rfl⟩
        · rw [if_neg h0] at heq
          exact heq ▸ hm kv0 hkv0
      · rcases List.mem_append.mp hkv with hl | hr
        · exact hm kv hl
        · simp only [List.mem_singleton] at hr
          cases hr
          exact ⟨rfl, rfl⟩

theorem ensureSectionStep_keyMem (m : List (String × JVal)) :
    keyMem "section" (ensureSectionStep (.obj m)) = true := by
  unfold ensureSectionStep
  by_cases he : m.isEmpty
  · simp [he, keyMem, jlookup]
  · simp only [he, Bool.false_eq_true, if_false]
    by_cases hs : keyMem "section" m
    · simp [hs]
    · rw [if_neg (by simp [hs]), pySet, if_neg (by simp [hs])]
      rw [keyMem, jlookup_append]
      have : jlookup "section" m = none := by
        cases hj : jlookup "section" m with
        | none => rfl
        | some v => rw [keyMem, hj] at hs; simp at hs
      simp [this, jlookup]

theorem ensureSectionStep_of_section (l : List (String × JVal)) (hne : ¬ l.isEmpty)
    (hsec : keyMem "section" l = true) : ensureSectionStep (.obj l) = l := by
  unfold ensureSectionStep
  simp [hne, hsec]

theorem normalize_atoms (m : List (String × JVal))
    (hm : ∀ kv ∈ m, isAtom kv.2 = true ∧ isEmptyLike kv.2 = false) :
    normalize_extracted_data (.obj m) = some (.obj (ensureSectionStep (.obj m))) := by
  unfold normalize_extracted_data
  rw [ffTablesStep_atoms _ (fun kv hkv => (ensureSectionStep_entries m hm kv hkv).1)]
  have hre : remove_empty_values (.obj (ensureSectionStep (.obj m)))
      = .obj (ensureSectionStep (.obj m)) := by
    show JVal.obj (removeEmptyObj _) = _
    rw [removeEmptyObj_id _ (ensureSectionStep_entries m hm)]
  simp [hre]

/-- C2 fails as stated: normalizing can strip a `section` whose value is
empty, or turn a list that cleans to empty into `null`; a second
normalization then differs.  Here `{"section": "A", "k": [""]}` normalizes to
`{"section": "A", "k": null}`, and normalizing that result drops `k`. -/
theorem C2_counterexample :
    normalize_extracted_data (.obj [("section", .str "A"), ("k", .list [.str ""])])
      = some (.obj [("section", .str "A"), ("k", .null)])
    ∧ normalize_extracted_data (.obj [("section", .str "A"), ("k", .null)])
      = some (.obj [("section", .str "A")])
    ∧ JVal.obj [("section", .str "A"), ("k", .null)] ≠ .obj [("section", .str "A")] :=
  ⟨rfl, rfl, by decide⟩

/-- C2 amended: the normalizer is idempotent on records all of whose values
are non-empty atomic scalars (strings, numbers, booleans that survive the
stripping).  In general idempotence fails: one pass can leave `null`s behind
(a list that cleaned to empty) or remove the `section` key (when its value
was empty), and the second pass then differs. -/
theorem C2_amended (m : List (String × JVal))
    (h : ∀ kv ∈ m, isAtom kv.2 = true ∧ isEmptyLike kv.2 = false) :
    ∃ y, normalize_extracted_data (.obj m) = some y
      ∧ normalize_extracted_data y = some y := by
  refine ⟨.obj (ensureSectionStep (.obj m)), normalize_atoms m h, ?_⟩
  have hent := ensureSectionStep_entries m h
  have hfix : ensureSectionStep (.obj (ensureSectionStep (.obj m)))
      = ensureSectionStep (.obj m) := by
    apply ensureSectionStep_of_section
    · intro he
      have := ensureSectionStep_keyMem m
      rw [List.isEmpty_iff.mp he] at this
      simp [keyMem, jlookup] at this
    · exact ensureSectionStep_keyMem m
  rw [normalize_atoms _ hent, hfix]

theorem C2_amended_witness :
    (∀ kv ∈ ([("section", JVal.str "A"), ("n", JVal.num 0)] : List (String × JVal)),
      isAtom kv.2 = true ∧ isEmptyLike kv.2 = false)
    ∧ ∃ y, normalize_extracted_data (.obj [("section", .str "A"), ("n", .num 0)]) = some y
        ∧ normalize_extracted_data y = some y :=
  ⟨by decide, C2_amended [("section", .str "A"), ("n", .num 0)] (by decide)⟩

theorem ensureSectionStep_lookup (x : JVal) :
    jlookup "section" (ensureSectionStep x) = some (ensuredSection x) := by
  cases x with
  | obj m =>
    unfold ensureSectionStep ensuredSection
    by_cases he : m.isEmpty
    · simp [he, keyMem, jlookup]
    · simp only [he, Bool.false_eq_true, if_false]
      cases hj : jlookup "section" m with
      | some v => simp [keyMem, hj]
      | none =>
        rw [if_neg (by simp [keyMem, hj]), pySet, if_neg (by simp [keyMem, hj])]
        rw [jlookup_append, hj]
        simp [jlookup]
  | null => rfl
  | bool b => rfl
  | num n => rfl
  | str s => rfl
  | list xs => rfl

theorem ensureSectionStep_nodup (x : JVal) (hwf : topKeysNodup x) :
    ((ensureSectionStep x).map Prod.fst).Nodup := by
  cases x with
  | obj m =>
    unfold ensureSectionStep
    by_cases he : m.isEmpty
    · simp only [he, if_true]
      decide
    · simp only [he, Bool.false_eq_true, if_false]
      by_cases hs : keyMem "section" m
      · simpa [hs] using hwf
      · rw [if_neg (by simp [hs])]
        exact nodup_keys_pySet hwf _
  | null => decide
  | bool b =>
    rw [show ensureSectionStep (JVal.bool b)
          = [("section", JVal.str "UNKNOWN SECTION")] from rfl]
    decide
  | num n =>
    rw [show ensureSectionStep (JVal.num n)
          = [("section", JVal.str "UNKNOWN SECTION")] from rfl]
    decide
  | str s =>
    rw [show ensureSectionStep (JVal.str s)
          = [("section", JVal.str "UNKNOWN SECTION")] from rfl]
    decide
  | list xs =>
    rw [show ensureSectionStep (JVal.list xs)
          = [("section", JVal.str "UNKNOWN SECTION")] from rfl]
    decide

/-- C5 fails as stated: the normalizer inserts `section` before the final
empty-value stripping, so a dict whose `section` value is itself empty comes
out with no `section` key at all. -/
theorem C5_counterexample :
    normalize_extracted_data (.obj [("section", .str "")]) = some (.obj [])
    ∧ jHasKey "section" (.obj []) = false :=
  ⟨rfl, rfl⟩

/-- C5 amended: a `section` key (defaulting to the sentinel
`"UNKNOWN SECTION"` when absent, or when the input is not a structured
object or is falsy) is guaranteed *before* the final empty-value stripping.
The returned record carries `section` exactly when that ensured value is not
itself empty-like: a non-empty ensured value survives (cleaned), while an
empty one (e.g. input `section` value `""`) is stripped, leaving a record
with no `section` key. -/
theorem C5_amended (x y : JVal) (hwf : topKeysNodup x)
    (h : normalize_extracted_data x = some y) :
    (isEmptyLike (ensuredSection x) = false →
      jlookup "section" (recordEntries y)
        = some (remove_empty_values (ensuredSection x)))
    ∧ (isEmptyLike (ensuredSection x) = true → jHasKey "section" y = false) := by
  unfold normalize_extracted_data at h
  cases hf : ffTablesStep (ensureSectionStep x) with
  | none => rw [hf] at h; cases h
  | some m3 =>
    rw [hf] at h
    simp only [Option.map_some', Option.some.injEq] at h
    have hlk : jlookup "section" m3 = some (ensuredSection x) := by
      rw [ffTablesStep_lookup (by decide) (by decide) hf]
      exact ensureSectionStep_lookup x
    have hnd3 : (m3.map Prod.fst).Nodup :=
      ffTablesStep_keys_nodup hf (ensureSectionStep_nodup x hwf)
    subst h
    constructor
    · intro hne
      show jlookup "section" (removeEmptyObj m3) = _
      exact jlookup_removeEmptyObj_some hlk hne
    · intro hemp
      show keyMem "section" (removeEmptyObj m3) = false
      rw [keyMem, jlookup_removeEmptyObj_empty hnd3 hlk hemp]
      rfl

theorem C5_amended_witness :
    normalize_extracted_data (.obj [("section", JVal.str "S")])
      = some (.obj [("section", .str "S")])
    ∧ isEmptyLike (ensuredSection (.obj [("section", JVal.str "S")])) = false
    ∧ jlookup "section" (recordEntries (.obj [("section", JVal.str "S")]))
      = some (remove_empty_values (ensuredSection (.obj [("section", JVal.str "S")]))) :=
  ⟨rfl, by decide,
    (C5_amended (.obj [("section", .str "S")]) (.obj [("section", .str "S")])
      (by
        show (([("section", JVal.str "S")] : List (String × JVal)).map Prod.fst).Nodup
        decide)
      rfl).1 (by decide)⟩

theorem mem_pySet {acc : List (String × JVal)} {k : String} {v : JVal} :
    ∀ kv ∈ pySet acc k v, kv = (k, v) ∨ kv ∈ acc := by
  intro kv hkv
  unfold pySet at hkv
  split at hkv
  · obtain ⟨kv0, hkv0, heq⟩ := List.mem_map.mp hkv
    by_cases h0 : kv0.1 = k
    · rw [if_pos h0] at heq
      exact Or.inl heq.symm
    · rw [if_neg h0] at heq
      exact Or.inr (heq ▸ hkv0)
  · rcases List.mem_append.mp hkv with hl | hr
    · exact Or.inr hl
    · exact Or.inl (List.mem_singleton.mp hr)

theorem mergeStep_good (P : String × JVal → Prop)
    (hP : ∀ kv, truthyJ kv.2 = true → P kv) :
    ∀ (l : List (String × JVal)) (acc : List (String × JVal)),
      (∀ kv ∈ acc, P kv) → ∀ kv ∈ l.foldl mergeStep acc, P kv := by
  intro l
  induction l with
  | nil => intro acc hacc kv hkv; exact hacc kv hkv
  | cons hd tl ih =>
    intro acc hacc kv hkv
    rw [List.foldl_cons] at hkv
    refine ih (mergeStep acc hd) ?_ kv hkv
    intro kv2 hkv2
    unfold mergeStep at hkv2
    split at hkv2
    · rcases mem_pySet kv2 hkv2 with heq | hmem
      · subst heq
        exact hP _ (by simp_all)
      · exact hacc kv2 hmem
    · exact hacc kv2 hkv2

theorem mergeStep_keyMem_false {k : String} :
    ∀ (l : List (String × JVal)) (acc : List (String × JVal)),
      keyMem k acc = false → (∀ kv ∈ l, kv.1 = k → truthyJ kv.2 = false) →
      keyMem k (l.foldl mergeStep acc) = false := by
  intro l
  induction l with
  | nil => intro acc hacc _; exact hacc
  | cons hd tl ih =>
    intro acc hacc hl
    rw [List.foldl_cons]
    refine ih _ ?_ (fun kv hkv => hl kv (List.mem_cons_of_mem _ hkv))
    unfold mergeStep
    split
    · rename_i hcond
      by_cases hk : hd.1 = k
      · exact absurd hcond.2 (by simp [hl hd (List.mem_cons_self _ _) hk])
      · rw [keyMem, jlookup_pySet_ne (Ne.symm hk) acc hd.2]
        exact hacc
    · exact hacc

/-- C10: when a page's inference output parses and normalizes, the consumer
copies into the Page Record only those non-`section` keys whose normalized
value is truthy; every normalized field whose value is `0`, `false`, `""`,
`null`, or an empty collection is omitted, so apart from the `page` and
`section` entries every field of a successful Page Record holds a truthy
value. -/
theorem C10_truthy_merge (idx : Int) (parsed : JVal) (rawOpt : Option String)
    (pes : List (String × JVal))
    (hn : normalize_extracted_data parsed = some (.obj pes))
    (hnd : (pes.map Prod.fst).Nodup) :
    (∀ kv ∈ recordEntries (consumeItem idx (some (.out (some parsed) rawOpt))),
       kv.1 = "page" ∨ kv.1 = "section" ∨ truthyJ kv.2 = true)
    ∧ (∀ kv ∈ pes, kv.1 ≠ "page" → kv.1 ≠ "section" → truthyJ kv.2 = false →
        keyMem kv.1 (recordEntries (consumeItem idx (some (.out (some parsed) rawOpt))))
          = false) := by
  have hrec : recordEntries (consumeItem idx (some (.out (some parsed) rawOpt)))
      = pes.foldl mergeStep
          [("page", .num idx),
           ("section", (jlookup "section" pes).getD (.str "UNKNOWN SECTION"))] := by
    show recordEntries
        (match normalize_extracted_data parsed with
          | none => pageErrorRecord idx normalizeCrashMsg
          | some p =>
            JVal.obj ((recordEntries p).foldl mergeStep
              [("page", JVal.num idx),
               ("section",
                 (jlookup "section" (recordEntries p)).getD (JVal.str "UNKNOWN SECTION"))]))
        = _
    rw [hn]
    rfl
  rw [hrec]
  constructor
  · refine mergeStep_good _ (fun kv h => Or.inr (Or.inr h)) pes _ ?_
    intro kv hkv
    rcases List.mem_cons.mp hkv with heq | h2
    · exact Or.inl (by rw [heq])
    · rcases List.mem_cons.mp h2 with heq | h3
      · exact Or.inr (Or.inl (by rw [heq]))
      · cases h3
  · intro kv hkv hp hs hfalse
    refine mergeStep_keyMem_false pes _ ?_ ?_
    · simp [keyMem, jlookup, Ne.symm hp, Ne.symm hs]
    · intro kv2 hkv2 hk2
      have hj1 : jlookup kv.1 pes = some kv.2 := by
        have : (kv.1, kv.2) ∈ pes := by simpa using hkv
        exact jlookup_of_mem_nodup this hnd
      have hj2 : jlookup kv.1 pes = some kv2.2 := by
        have : (kv.1, kv2.2) ∈ pes := by
          have : (kv2.1, kv2.2) ∈ pes := by simpa using hkv2
          rwa [hk2] at this
        exact jlookup_of_mem_nodup this hnd
      rw [hj1] at hj2
      rw [← Option.some.inj hj2]
      exact hfalse

theorem C10_witness :
    normalize_extracted_data (.obj [("section", .str "S"), ("amount", .num 0), ("name", .str "x")])
      = some (.obj [("section", .str "S"), ("amount", .num 0), ("name", .str "x")])
    ∧ ((([("section", JVal.str "S"), ("amount", JVal.num 0), ("name", JVal.str "x")] :
          List (String × JVal)).map Prod.fst).Nodup)
    ∧ keyMem "amount"
        (recordEntries (consumeItem 1 (some (.out
          (some (.obj [("section", .str "S"), ("amount", .num 0), ("name", .str "x")]))
          none)))) = false :=
  ⟨rfl, by decide,
    (C10_truthy_merge 1
      (.obj [("section", .str "S"), ("amount", .num 0), ("name", .str "x")]) none
      [("section", .str "S"), ("amount", .num 0), ("name", .str "x")]
      rfl (by decide)).2
      ("amount", .num 0) (by decide) (by decide) (by decide) (by decide)⟩

/-- C3: however the concurrent producer/consumer pipeline interleaves
per-page results (any permutation of the items the producer enqueues, one
per rendered page), the assembled `pages` sequence is sorted ascending by its
`page` field and its length equals the number of rendered pages. -/
theorem C3_sorted_assembly (prep : List (Option InferOut)) (start : Int)
    (q : List (Int × Option InferOut)) (hq : q.Perm (producerItems start prep)) :
    List.Sorted pageLe (assemblePages q)
    ∧ (assemblePages q).length = prep.length := by
  constructor
  · exact List.sorted_insertionSort pageLe _
  · show (List.insertionSort pageLe _).length = _
    rw [(List.perm_insertionSort pageLe _).length_eq, List.length_map,
      hq.length_eq]
    unfold producerItems
    rw [List.length_zip, List.length_map, List.length_range]
    exact min_self _

theorem C3_witness :
    ([((2 : Int), some (InferOut.exn "x")), (3, none), (1, none)].Perm
      (producerItems 1 [none, some (InferOut.exn "x"), none]))
    ∧ List.Sorted pageLe
        (assemblePages [((2 : Int), some (InferOut.exn "x")), (3, none), (1, none)])
    ∧ (assemblePages [((2 : Int), some (InferOut.exn "x")), (3, none), (1, none)]).length
      = ([none, some (InferOut.exn "x"), none] : List (Option InferOut)).length :=
  ⟨by decide,
    (C3_sorted_assembly [none, some (InferOut.exn "x"), none] 1
      [(2, some (InferOut.exn "x")), (3, none), (1, none)] (by decide)).1,
    (C3_sorted_assembly [none, some (InferOut.exn "x"), none] 1
      [(2, some (InferOut.exn "x")), (3, none), (1, none)] (by decide)).2⟩

theorem foldl_fcaStep (ar : ℚ) :
    ∀ (l : List (Nat × Nat)) (b : Nat × Nat),
      l.foldl (fcaStep ar) (b, some (ratioDiff ar b))
        = (firstMin ar l b, some (ratioDiff ar (firstMin ar l b))) := by
  intro l
  induction l with
  | nil => intro b; rfl
  | cons r rest ih =>
    intro b
    rw [List.foldl_cons]
    by_cases h : ratioDiff ar r < ratioDiff ar b
    · rw [show fcaStep ar (b, some (ratioDiff ar b)) r = (r, some (ratioDiff ar r)) from by
        simp [fcaStep, h]]
      rw [ih r, firstMin, if_pos h]
    · rw [show fcaStep ar (b, some (ratioDiff ar b)) r = (b, some (ratioDiff ar b)) from by
        simp [fcaStep, h]]
      rw [ih b, firstMin, if_neg h]

theorem firstMin_spec (ar : ℚ) :
    ∀ (l : List (Nat × Nat)) (b : Nat × Nat),
      (∀ x ∈ b :: l, ratioDiff ar (firstMin ar l b) ≤ ratioDiff ar x)
      ∧ (firstMin ar l b = b ∨
          ∃ pre r post, l = pre ++ r :: post ∧ firstMin ar l b = r
            ∧ ratioDiff ar r < ratioDiff ar b
            ∧ ∀ x ∈ pre, ratioDiff ar r < ratioDiff ar x) := by
  intro l
  induction l with
  | nil =>
    intro b
    refine ⟨?_, Or.inl rfl⟩
    intro x hx
    rcases List.mem_cons.mp hx with rfl | hx
    · exact le_refl _
    · cases hx
  | cons r rest ih =>
    intro b
    by_cases h : ratioDiff ar r < ratioDiff ar b
    · have hspec := ih r
      rw [firstMin, if_pos h]
      constructor
      · intro x hx
        rcases List.mem_cons.mp hx with rfl | hx
        · exact le_of_lt (lt_of_le_of_lt (hspec.1 r (List.mem_cons_self _ _)) h)
        · exact hspec.1 x hx
      · rcases hspec.2 with heq | ⟨pre, r2, post, hsplit, heq, hlt, hpre⟩
        · exact Or.inr ⟨[], r, rest, rfl, heq, h, fun x hx => absurd hx (List.not_mem_nil x)⟩
        · refine Or.inr ⟨r :: pre, r2, post, by rw [hsplit]; rfl, heq, lt_trans hlt h, ?_⟩
          intro x hx
          rcases List.mem_cons.mp hx with rfl | hx
          · exact hlt
          · exact hpre x hx
    · have hspec := ih b
      rw [firstMin, if_neg h]
      constructor
      · intro x hx
        rcases List.mem_cons.mp hx with rfl | hx
        · exact hspec.1 x (List.mem_cons_self _ _)
        · rcases List.mem_cons.mp hx with rfl | hx
          · exact le_trans (hspec.1 b (List.mem_cons_self _ _)) (le_of_not_lt h)
          · exact hspec.1 x (List.mem_cons_of_mem _ hx)
      · rcases hspec.2 with heq | ⟨pre, r2, post, hsplit, heq, hlt, hpre⟩
        · exact Or.inl heq
        · refine Or.inr ⟨r :: pre, r2, post, by rw [hsplit]; rfl, heq, hlt, ?_⟩
          intro x hx
          rcases List.mem_cons.mp hx with rfl | hx
          · exact lt_of_lt_of_le hlt (le_of_not_lt h)
          · exact hpre x hx

theorem find_closest_eq_firstMin (ar : ℚ) (r0 : Nat × Nat) (rest : List (Nat × Nat)) :
    find_closest_aspect_ratio ar (r0 :: rest) = firstMin ar rest r0 := by
  unfold find_closest_aspect_ratio
  rw [List.foldl_cons,
    show fcaStep ar ((1, 1), none) r0 = (r0, some (ratioDiff ar r0)) from rfl,
    foldl_fcaStep ar rest r0]

/-- C6: grid selection is deterministic (the embedding is a pure function of
the aspect ratio, candidate list, and budget, so equal inputs give equal
grids and tile counts) and is characterized as the first minimizer: the
chosen grid splits the candidate list into a prefix of strictly worse grids
and attains the minimum |aspect - cols/rows| over all candidates, so ties go
to the earliest enumerated grid; and the precomputed budget-12 candidate
list holds exactly the grids with `1 ≤ cols, rows ≤ 12` and
`1 ≤ cols*rows ≤ 12`, in ascending `cols*rows` order. -/
theorem C6_grid_selection :
    (∀ (ar : ℚ) (ratios : List (Nat × Nat)), ratios ≠ [] →
      ∃ pre post,
        ratios = pre ++ find_closest_aspect_ratio ar ratios :: post
        ∧ (∀ r ∈ ratios,
            ratioDiff ar (find_closest_aspect_ratio ar ratios) ≤ ratioDiff ar r)
        ∧ (∀ r ∈ pre,
            ratioDiff ar (find_closest_aspect_ratio ar ratios) < ratioDiff ar r))
    ∧ (∀ p : Nat × Nat, p ∈ TARGET_RATIOS_12 ↔
        1 ≤ p.1 ∧ p.1 ≤ 12 ∧ 1 ≤ p.2 ∧ p.2 ≤ 12 ∧ 1 ≤ p.1 * p.2 ∧ p.1 * p.2 ≤ 12)
    ∧ List.Sorted (fun a b : Nat × Nat => a.1 * a.2 ≤ b.1 * b.2) TARGET_RATIOS_12 := by
  refine ⟨?_, ?_, by decide⟩
  · intro ar ratios hne
    cases ratios with
    | nil => exact absurd rfl hne
    | cons r0 rest =>
      rw [find_closest_eq_firstMin ar r0 rest]
      have hspec := firstMin_spec ar rest r0
      rcases hspec.2 with heq | ⟨pre, r2, post, hsplit, heq, hlt, hpre⟩
      · rw [heq]
        refine ⟨[], rest, rfl, ?_, fun x hx => absurd hx (List.not_mem_nil x)⟩
        intro r hr
        exact heq ▸ hspec.1 r hr
      · rw [heq]
        refine ⟨r0 :: pre, post, by rw [hsplit]; rfl, ?_, ?_⟩
        · intro r hr
          exact heq ▸ hspec.1 r hr
        · intro r hr
          rcases List.mem_cons.mp hr with rfl | hx
          · exact hlt
          · exact hpre r hx
  · intro p
    obtain ⟨i, j⟩ := p
    unfold TARGET_RATIOS_12 targetRatiosFor
    rw [(List.perm_insertionSort _ _).mem_iff]
    simp only [List.mem_flatMap, List.mem_filterMap, List.mem_map, List.mem_range]
    constructor
    · rintro ⟨i0, ⟨a, ha, rfl⟩, j0, ⟨b, hb, rfl⟩, hcond⟩
      split at hcond
      · rename_i hij
        cases hcond
        refine ⟨by omega, by omega, by omega, by omega, hij.1, hij.2⟩
      · cases hcond
    · rintro ⟨h1, h2, h3, h4, h5, h6⟩
      refine ⟨i, ⟨i - 1, by omega, by omega⟩, j, ⟨j - 1, by omega, by omega⟩, ?_⟩
      rw [if_pos ⟨h5, h6⟩]

theorem C6_witness :
    (TARGET_RATIOS_6 ≠ [])
    ∧ ∃ pre post,
        TARGET_RATIOS_6 = pre ++ find_closest_aspect_ratio 2 TARGET_RATIOS_6 :: post
        ∧ (∀ r ∈ TARGET_RATIOS_6,
            ratioDiff 2 (find_closest_aspect_ratio 2 TARGET_RATIOS_6) ≤ ratioDiff 2 r)
        ∧ (∀ r ∈ pre,
            ratioDiff 2 (find_closest_aspect_ratio 2 TARGET_RATIOS_6) < ratioDiff 2 r) :=
  ⟨by decide, C6_grid_selection.1 2 TARGET_RATIOS_6 (by decide)⟩

theorem firstMin_mem (ar : ℚ) :
    ∀ (l : List (Nat × Nat)) (b : Nat × Nat), firstMin ar l b ∈ b :: l := by
  intro l b
  rcases (firstMin_spec ar l b).2 with heq | ⟨pre, r, post, hsplit, heq, _, _⟩
  · rw [heq]; exact List.mem_cons_self _ _
  · rw [heq, hsplit]
    exact List.mem_cons_of_mem _ (List.mem_append_right pre (List.mem_cons_self _ _))

theorem find_closest_mem (ar : ℚ) (ratios : List (Nat × Nat)) (h : ratios ≠ []) :
    find_closest_aspect_ratio ar ratios ∈ ratios := by
  cases ratios with
  | nil => exact absurd rfl h
  | cons r0 rest =>
    rw [find_closest_eq_firstMin]
    exact firstMin_mem ar rest r0

theorem targetRatiosFor_pos (k : Nat) :
    ∀ p ∈ targetRatiosFor k, 1 ≤ p.1 ∧ 1 ≤ p.2 := by
  intro p hp
  unfold targetRatiosFor at hp
  rw [(List.perm_insertionSort _ _).mem_iff] at hp
  simp only [List.mem_flatMap, List.mem_filterMap, List.mem_map, List.mem_range] at hp
  obtain ⟨i0, ⟨a, ha, rfl⟩, j0, ⟨b, hb, rfl⟩, hcond⟩ := hp
  split at hcond
  · cases hcond
    exact ⟨by omega, by omega⟩
  · cases hcond

theorem find_closest_pos (ar : ℚ) (ratios : List (Nat × Nat))
    (hall : ∀ p ∈ ratios, 1 ≤ p.1 ∧ 1 ≤ p.2) :
    1 ≤ (find_closest_aspect_ratio ar ratios).1
    ∧ 1 ≤ (find_closest_aspect_ratio ar ratios).2 := by
  cases ratios with
  | nil => exact ⟨le_refl 1, le_refl 1⟩
  | cons r0 rest => exact hall _ (find_closest_mem ar _ (by simp))

theorem chosenGrid_pos (ow oh max_num : Nat) :
    1 ≤ (chosenGrid ow oh max_num).1 ∧ 1 ≤ (chosenGrid ow oh max_num).2 := by
  unfold chosenGrid
  apply find_closest_pos
  intro p hp
  split at hp
  · exact targetRatiosFor_pos 6 p hp
  · split at hp
    · exact targetRatiosFor_pos 12 p hp
    · exact targetRatiosFor_pos _ p hp

/-- C7: for any image size `(ow, oh)`, tile budget, and tile size `s > 0`,
the batch produced with the thumbnail enabled has exactly
`cols*rows + (1 if cols*rows > 1 else 0)` tiles for the chosen grid; its
first `cols*rows` tiles are the row-major grid crops of the resized page;
and those crop boxes are pairwise non-overlapping and lie within the resized
page `(s*cols) × (s*rows)`. -/
theorem C7_tile_batch (ow oh max_num s : Nat) (hs : 0 < s) (_hoh : 0 < oh) :
    (dynamic_preprocess ow oh max_num s true).length
      = (chosenGrid ow oh max_num).1 * (chosenGrid ow oh max_num).2
        + (if 1 < (chosenGrid ow oh max_num).1 * (chosenGrid ow oh max_num).2
           then 1 else 0)
    ∧ (dynamic_preprocess ow oh max_num s true).take
        ((chosenGrid ow oh max_num).1 * (chosenGrid ow oh max_num).2)
      = (List.range ((chosenGrid ow oh max_num).1 * (chosenGrid ow oh max_num).2)).map
          (fun i => Tile.crop (cellBox (chosenGrid ow oh max_num).1 s i))
    ∧ (∀ i j, i < (chosenGrid ow oh max_num).1 * (chosenGrid ow oh max_num).2 →
        j < (chosenGrid ow oh max_num).1 * (chosenGrid ow oh max_num).2 → i ≠ j →
        Box.Disjoint (cellBox (chosenGrid ow oh max_num).1 s i)
          (cellBox (chosenGrid ow oh max_num).1 s j))
    ∧ (∀ i, i < (chosenGrid ow oh max_num).1 * (chosenGrid ow oh max_num).2 →
        (cellBox (chosenGrid ow oh max_num).1 s i).x2
          ≤ s * (chosenGrid ow oh max_num).1
        ∧ (cellBox (chosenGrid ow oh max_num).1 s i).y2
          ≤ s * (chosenGrid ow oh max_num).2) := by
  obtain ⟨hc1, hc2⟩ := chosenGrid_pos ow oh max_num
  have hdiv : s * (chosenGrid ow oh max_num).1 / s = (chosenGrid ow oh max_num).1 :=
    Nat.mul_div_cancel_left _ hs
  have hb1 : 1 ≤ (chosenGrid ow oh max_num).1 * (chosenGrid ow oh max_num).2 :=
    Nat.one_le_iff_ne_zero.mpr (Nat.mul_ne_zero (by omega) (by omega))
  have hcrops : dynamic_preprocess ow oh max_num s true
      = (let crops := (List.range
            ((chosenGrid ow oh max_num).1 * (chosenGrid ow oh max_num).2)).map
            (fun i => Tile.crop (cellBox (chosenGrid ow oh max_num).1 s i))
         if crops.length ≠ 1 then crops ++ [Tile.thumb] else crops) := by
    unfold dynamic_preprocess
    simp only [hdiv, true_and]
    rfl
  have hlen : ((List.range
      ((chosenGrid ow oh max_num).1 * (chosenGrid ow oh max_num).2)).map
      (fun i => Tile.crop (cellBox (chosenGrid ow oh max_num).1 s i))).length
      = (chosenGrid ow oh max_num).1 * (chosenGrid ow oh max_num).2 := by
    rw [List.length_map, List.length_range]
  refine ⟨?_, ?_, ?_, ?_⟩
  · rw [hcrops]
    by_cases hone : (chosenGrid ow oh max_num).1 * (chosenGrid ow oh max_num).2 = 1
    · simp only [hlen, hone]
      norm_num
    · simp only [hlen]
      rw [if_pos (by omega), if_pos (by omega), List.length_append, hlen]
      rfl
  · rw [hcrops]
    simp only [hlen]
    by_cases hone : (chosenGrid ow oh max_num).1 * (chosenGrid ow oh max_num).2 = 1
    · rw [if_neg (by omega)]
      exact List.take_of_length_le (le_of_eq hlen)
    · rw [if_pos (by omega)]
      rw [List.take_append_of_le_length (le_of_eq hlen.symm)]
      exact List.take_of_length_le (le_of_eq hlen)
  · intro i j hi hj hne
    set c := (chosenGrid ow oh max_num).1 with hc
    have hij : i % c ≠ j % c ∨ i / c ≠ j / c := by
      by_contra hcon
      push_neg at hcon
      apply hne
      have h1 := Nat.mod_add_div i c
      have h2 := Nat.mod_add_div j c
      rw [hcon.1, hcon.2] at h1
      exact h1.symm.trans h2
    unfold Box.Disjoint cellBox
    rcases hij with hx | hy
    · rcases Nat.lt_or_ge (i % c) (j % c) with hlt | hge
      · exact Or.inl (Nat.mul_le_mul_right s hlt)
      · have hjlt : j % c < i % c := by omega
        exact Or.inr (Or.inl (Nat.mul_le_mul_right s hjlt))
    · rcases Nat.lt_or_ge (i / c) (j / c) with hlt | hge
      · exact Or.inr (Or.inr (Or.inl (Nat.mul_le_mul_right s hlt)))
      · have hjlt : j / c < i / c := by omega
        exact Or.inr (Or.inr (Or.inr (Nat.mul_le_mul_right s hjlt)))
  · intro i hi
    set c := (chosenGrid ow oh max_num).1 with hc
    set r := (chosenGrid ow oh max_num).2 with hr
    constructor
    · show (i % c + 1) * s ≤ s * c
      have hmod : i % c < c := Nat.mod_lt i (by omega)
      calc (i % c + 1) * s ≤ c * s := Nat.mul_le_mul_right s (by omega)
        _ = s * c := Nat.mul_comm c s
    · show (i / c + 1) * s ≤ s * r
      have hdivlt : i / c < r := by
        rw [Nat.div_lt_iff_lt_mul (by omega : 0 < c)]
        calc i < c * r := hi
          _ = r * c := Nat.mul_comm c r
      calc (i / c + 1) * s ≤ r * s := Nat.mul_le_mul_right s (by omega)
        _ = s * r := Nat.mul_comm r s

theorem C7_witness :
    (0 < 448) ∧ (0 < 600)
    ∧ (dynamic_preprocess 800 600 12 448 true).length
      = (chosenGrid 800 600 12).1 * (chosenGrid 800 600 12).2
        + (if 1 < (chosenGrid 800 600 12).1 * (chosenGrid 800 600 12).2 then 1 else 0) :=
  ⟨by decide, by decide, (C7_tile_batch 800 600 12 448 (by decide) (by decide)).1⟩
